import Mathlib

/-!
Shallow embedding of the pywundercam library (state reconciliation and
resource catalog subsystems) together with theorems checking the
specification claims against the code.

Source files embedded:
- src/pywundercam/state.py      (CamState: validation and operation queueing)
- src/pywundercam/__init__.py   (PyWunderCam: commit of pending operations,
                                 full state read)
- src/pywundercam/resourceio.py (SingleResource, SequenceResource,
                                 ResourceContainer: scanning, grouping,
                                 ordering, differencing)

Transport (HTTP requests) is modelled as an explicit function argument
returning either an error or a parsed JSON object; Python dictionaries are
modelled as insertion-ordered association lists; Python exceptions are
modelled with an explicit error type threaded through `Except`.
-/

set_option autoImplicit false

namespace PyWunderCam

/-- A JSON-ish value as exchanged with the camera: integers, strings or the
Python value None. -/
inductive Val where
  | vInt (n : Int)
  | vStr (s : String)
  | vNone
deriving DecidableEq, Repr

/-- The error taxonomy of the library: the exception classes of
src/pywundercam/exceptions.py that the embedded code can raise, plus the
built-in Python exceptions it raises or propagates (ValueError, KeyError,
TypeError, bare Exception). Each carries the message or key it is raised
with. -/
inductive PyErr where
  | connectionError (msg : String)
  | timeoutError (msg : String)
  | dataTransferError (msg : String)
  | valueError (msg : String)
  | keyError (key : String)
  | typeError (msg : String)
  | genericException (msg : String)
deriving DecidableEq, Repr

/-- A Python dict with string keys, modelled as an insertion-ordered
association list (keys are unique in every dict the code builds). -/
abbrev StateDict := List (String × Val)

/-- Assignment `d[k] = v` on a dict: if the key is present its value is
replaced in place (position preserved), otherwise the pair is appended. -/
def dictSet (d : StateDict) (k : String) (v : Val) : StateDict :=
  match d with
  | [] => [(k, v)]
  | (k', v') :: t => if k' = k then (k, v) :: t else (k', v') :: dictSet t k v

/-- Lookup `d[k]` on a dict, returning the first binding of the key. -/
def dictGet (d : StateDict) (k : String) : Option Val :=
  match d with
  | [] => none
  | (k', v') :: t => if k' = k then some v' else dictGet t k

/-- Python `d.update(u)`: assign every binding of `u` into `d` in order. -/
def dictUpdate (d u : StateDict) : StateDict :=
  match u with
  | [] => d
  | (k, v) :: t => dictUpdate (dictSet d k v) t

/-- The fixed list of camera attribute keys
(`CamState._camera_data_attributes` in src/pywundercam/state.py). -/
def cameraDataAttributes : List String :=
  ["CurPvSMStatus", "CurHpSMStatus", "CurWpSMStatus", "BatteryGird", "ShootMode",
   "SettingMode", "ChargeFlag", "HDMIonnectFlag", "SdcardplugFlag", "ErrorCode", "bSupport30p", "PhotoDelay",
   "PhotoNumber", "PhotoTime", "VideoFrameRate", "VideoFrameInterval", "LoopVideoTime", "SerialNumber",
   "ProductModel", "FirmwareSoftwareVersion", "ISO", "WhiteBalanceMode", "ExposureCompensation", "SceneMode",
   "capacity", "remainTime", "remainNum", "Mute", "AutoShutDown", "WifiPass", "WifiSSID"]

/-- The camera state object (`CamState` in src/pywundercam/state.py):
the attribute dictionary `_camera_data_structure` and the insertion-ordered
pending operation dictionary `_ops_to_apply` mapping a command id to its
parameter dict. -/
structure CamState where
  cameraData : StateDict
  ops : List (Nat × StateDict)
deriving DecidableEq, Repr

namespace CamState

/-- `CamState.__init__`: every known attribute key mapped to None, then
updated with the optional initial data. -/
def init (cameraData : Option StateDict) : CamState :=
  let base := cameraDataAttributes.map (fun k => (k, Val.vNone))
  { cameraData :=
      match cameraData with
      | none => base
      | some d => dictUpdate base d
    ops := [] }

/-- `CamState._prepare`: reset the pending operation set to empty. -/
def prepare (s : CamState) : CamState :=
  { s with ops := [] }

/-- Assignment into the `_ops_to_apply` OrderedDict: replace in place when
the command id is present, else append. -/
def opsSet (l : List (Nat × StateDict)) (k : Nat) (v : StateDict) :
    List (Nat × StateDict) :=
  match l with
  | [] => [(k, v)]
  | (k', v') :: t => if k' = k then (k, v) :: t else (k', v') :: opsSet t k v

/-- The `shoot_mode` property setter: values 0..6 queue command 21, others
raise ValueError before touching the pending set. The second component is
the state of the object after the call (unchanged when the call raises). -/
def setShootMode (s : CamState) (v : Int) : Except PyErr Unit × CamState :=
  if 0 ≤ v ∧ v < 7 then
    (Except.ok (), { s with ops := opsSet s.ops 21 [("ModeType", Val.vInt v)] })
  else
    (Except.error (PyErr.valueError "Can't set that shoot mode"), s)

/-- The `setting_mode` property setter: values 0..1 queue command 29. -/
def setSettingMode (s : CamState) (v : Int) : Except PyErr Unit × CamState :=
  if v = 0 ∨ v = 1 then
    (Except.ok (), { s with ops := opsSet s.ops 29 [("SettingMode", Val.vInt v)] })
  else
    (Except.error (PyErr.valueError "Can't set that setting mode"), s)

/-- The `iso` property setter: values 0..4 queue command 25; anything else
raises ValueError. The source line lacks the f-string prefix, so the raised
message contains the literal text of the placeholder, not the value. -/
def setIso (s : CamState) (v : Int) : Except PyErr Unit × CamState :=
  if ¬ (0 ≤ v ∧ v < 5) then
    (Except.error (PyErr.valueError "Invalid value \x7bnew_iso_value\x7d for parameter iso"), s)
  else
    (Except.ok (), { s with ops := opsSet s.ops 25 [("ISO", Val.vInt v)] })

/-- The `white_balance_mode` property setter: values 0..4 queue command 26. -/
def setWhiteBalanceMode (s : CamState) (v : Int) : Except PyErr Unit × CamState :=
  if ¬ (0 ≤ v ∧ v < 5) then
    (Except.error (PyErr.valueError "Invalid value \x7bnew_white_balance_value\x7d for parameter white_balance_mode"), s)
  else
    (Except.ok (), { s with ops := opsSet s.ops 26 [("WhiteBalanceMode", Val.vInt v)] })

/-- The `exposure_compensation` property setter: values 0..13 queue
command 27. -/
def setExposureCompensation (s : CamState) (v : Int) : Except PyErr Unit × CamState :=
  if ¬ (0 ≤ v ∧ v < 14) then
    (Except.error (PyErr.valueError "Invalid value \x7bnew_exposure_compensation_value\x7d for parameter exposure_compensation"), s)
  else
    (Except.ok (), { s with ops := opsSet s.ops 27 [("ExposureCompensation", Val.vInt v)] })

end CamState

/-- The five read/write attributes of the camera state. -/
inductive RwAttr where
  | shootMode
  | settingMode
  | iso
  | whiteBalanceMode
  | exposureCompensation
deriving DecidableEq, Repr

namespace RwAttr

/-- The hardware command id queued by each attribute setter. -/
def cmdId : RwAttr → Nat
  | .shootMode => 21
  | .settingMode => 29
  | .iso => 25
  | .whiteBalanceMode => 26
  | .exposureCompensation => 27

/-- The parameter name carried by each attribute's command. -/
def paramKey : RwAttr → String
  | .shootMode => "ModeType"
  | .settingMode => "SettingMode"
  | .iso => "ISO"
  | .whiteBalanceMode => "WhiteBalanceMode"
  | .exposureCompensation => "ExposureCompensation"

/-- The declared domain check of each attribute setter. -/
def inDomain : RwAttr → Int → Prop
  | .shootMode, v => 0 ≤ v ∧ v < 7
  | .settingMode, v => v = 0 ∨ v = 1
  | .iso, v => 0 ≤ v ∧ v < 5
  | .whiteBalanceMode, v => 0 ≤ v ∧ v < 5
  | .exposureCompensation, v => 0 ≤ v ∧ v < 14

instance instDecidableInDomain (a : RwAttr) (v : Int) : Decidable (a.inDomain v) :=
  match a with
  | .shootMode => inferInstanceAs (Decidable (0 ≤ v ∧ v < 7))
  | .settingMode => inferInstanceAs (Decidable (v = 0 ∨ v = 1))
  | .iso => inferInstanceAs (Decidable (0 ≤ v ∧ v < 5))
  | .whiteBalanceMode => inferInstanceAs (Decidable (0 ≤ v ∧ v < 5))
  | .exposureCompensation => inferInstanceAs (Decidable (0 ≤ v ∧ v < 14))

/-- The message of the ValueError each setter raises on an out-of-domain
value (fixed text, independent of the offending value). -/
def errMsg : RwAttr → String
  | .shootMode => "Can't set that shoot mode"
  | .settingMode => "Can't set that setting mode"
  | .iso => "Invalid value \x7bnew_iso_value\x7d for parameter iso"
  | .whiteBalanceMode => "Invalid value \x7bnew_white_balance_value\x7d for parameter white_balance_mode"
  | .exposureCompensation => "Invalid value \x7bnew_exposure_compensation_value\x7d for parameter exposure_compensation"

/-- Dispatch to the source setter of each read/write attribute. -/
def applySet (a : RwAttr) (s : CamState) (v : Int) : Except PyErr Unit × CamState :=
  match a with
  | .shootMode => s.setShootMode v
  | .settingMode => s.setSettingMode v
  | .iso => s.setIso v
  | .whiteBalanceMode => s.setWhiteBalanceMode v
  | .exposureCompensation => s.setExposureCompensation v

end RwAttr

/-- The transport collaborator: one control request
(`PyWunderCam.__req_data` in src/pywundercam/__init__.py) issued with a
command id and a parameter dict, returning either the parsed JSON response
or the error the request raised (connection error, timeout, or a data
transfer error for a non-200 status). -/
abbrev Transport := Nat → StateDict → Except PyErr StateDict

/-- The commit loop of the `camera_state` property setter: issue each
pending operation in insertion order, merging the responses into one
accumulated dict with Python dict update (last write wins). The first
component records the command ids actually issued by the loop, in order;
the second is the accumulated response dict or the first error raised. -/
def runOps (t : Transport) (ops : List (Nat × StateDict)) (acc : StateDict) :
    List Nat × Except PyErr StateDict :=
  match ops with
  | [] => ([], Except.ok acc)
  | (c, p) :: rest =>
    match t c p with
    | Except.error e => ([c], Except.error e)
    | Except.ok r =>
      let res := runOps t rest (dictUpdate acc r)
      (c :: res.1, res.2)

/-- The `camera_state` property setter of `PyWunderCam`
(src/pywundercam/__init__.py lines 146..157): if the prepared state object
carries pending operations, issue them all and only then update the current
state's attribute dict with the accumulated responses. The second component
is the client's current state after the call: when any operation fails the
update line is never reached, so it is the unchanged `cur`. -/
def commitState (t : Transport) (cur : CamState) (newOps : List (Nat × StateDict)) :
    Except PyErr Unit × CamState :=
  if newOps.length > 0 then
    match (runOps t newOps []).2 with
    | Except.error e => (Except.error e, cur)
    | Except.ok returned =>
      (Except.ok (), { cur with cameraData := dictUpdate cur.cameraData returned })
  else
    (Except.ok (), cur)

/-- The sequential read loop of `PyWunderCam._full_read`: issue each read
command with no parameters, folding the responses into one dict with Python
dict update; the first error aborts the loop. -/
def readSeq (t : Transport) (cmds : List Nat) (acc : StateDict) :
    Except PyErr StateDict :=
  match cmds with
  | [] => Except.ok acc
  | c :: rest =>
    match t c [] with
    | Except.error e => Except.error e
    | Except.ok r => readSeq t rest (dictUpdate acc r)

/-- The fixed ordered list of read commands issued by
`PyWunderCam._full_read`. -/
def fullReadCmds : List Nat := [3, 37, 4, 5, 6, 7, 8, 9, 10, 11, 12, 13, 14, 15, 16, 17]

/-- `PyWunderCam._full_read`: read every command of `fullReadCmds` in order
into one merged dict and build a fresh `CamState` from it; the enclosing
try block replaces any exception with a bare generic
Exception("Something Went wrong"). -/
def fullRead (t : Transport) : Except PyErr CamState :=
  match readSeq t fullReadCmds [] with
  | Except.ok d => Except.ok (CamState.init (some d))
  | Except.error _ => Except.error (PyErr.genericException "Something Went wrong")

/-! Embedding of src/pywundercam/resourceio.py.

A compiled filename regular expression with named groups is modelled as a
function from a filename to an optional groupdict (`none` when the match
fails); the listing fetch and anchor extraction are modelled by taking the
list of extracted href strings as input. -/

/-- A groupdict produced by a successful regular expression match: named
groups with the substrings they captured. -/
abbrev Metadata := List (String × String)

/-- Lookup of a named group, `str(groupdict[field])`: a missing field is a
Python KeyError. -/
def strOf (md : Metadata) (field : String) : Except PyErr String :=
  match md.lookup field with
  | some v => Except.ok v
  | none => Except.error (PyErr.keyError field)

/-- One entry of the working list `all_files` of
`ResourceContainer.__init__`: the triple of filename, optional decoded
metadata and optional concatenated group key. -/
structure FileEntry where
  name : String
  metadata : Option Metadata
  key : Option String
deriving DecidableEq, Repr

/-- The key concatenation loop of `ResourceContainer.__init__`:
`concatenated_attrs += str(file_metadata.groupdict()[an_item])` over the
group-by fields in order. -/
def computeKey (md : Metadata) (gb : List String) (acc : String) :
    Except PyErr String :=
  match gb with
  | [] => Except.ok acc
  | f :: rest =>
    match strOf md f with
    | Except.error e => Except.error e
    | Except.ok v => computeKey md rest (acc ++ v)

/-- The per-entry annotation step of `ResourceContainer.__init__` when a
filename regular expression was supplied: a matching entry stores its
groupdict and, when group-by fields were supplied, its concatenated group
key; an entry that fails to match keeps metadata and key at None. -/
def tagFile (m : String → Option Metadata) (gb : Option (List String))
    (f : String) : Except PyErr FileEntry :=
  match m f with
  | none => Except.ok ⟨f, none, none⟩
  | some md =>
    match gb with
    | none => Except.ok ⟨f, some md, none⟩
    | some g =>
      match computeKey md g "" with
      | Except.error e => Except.error e
      | Except.ok k => Except.ok ⟨f, some md, some k⟩

/-- Sequential map over a list in the Except monad, mirroring a Python
loop in which the first raised exception aborts the whole computation. -/
def mapE {α β : Type} (f : α → Except PyErr β) (l : List α) :
    Except PyErr (List β) :=
  match l with
  | [] => Except.ok []
  | x :: t =>
    match f x with
    | Except.error e => Except.error e
    | Except.ok y =>
      match mapE f t with
      | Except.error e => Except.error e
      | Except.ok ys => Except.ok (y :: ys)

/-- Insertion of one entry into the `grouped_files` dict keyed by the
entry's group key: append to the existing list of its key, or add a new
singleton group at the end (Python dict insertion order). -/
def groupInsert (acc : List (Option String × List FileEntry)) (f : FileEntry) :
    List (Option String × List FileEntry) :=
  match acc with
  | [] => [(f.key, [f])]
  | (k, fs) :: rest =>
    if k = f.key then (k, fs ++ [f]) :: rest else (k, fs) :: groupInsert rest f

/-- The grouping loop of `ResourceContainer.__init__` over `all_files`. -/
def groupAll (files : List FileEntry) : List (Option String × List FileEntry) :=
  files.foldl groupInsert []

/-- The `grouped_files.values()` view: with group-by fields supplied the
entries are grouped by their group key (all non-matching entries share the
None key); otherwise every entry is its own group keyed by its position. -/
def groupsOf (gb : Option (List String)) (files : List FileEntry) :
    List (List FileEntry) :=
  match gb with
  | some _ => (groupAll files).map (fun p => p.2)
  | none => files.map (fun f => [f])

/-- Python `int(s)` restricted to the shapes the camera metadata can
produce: an optional sign followed by decimal digits; anything else raises
ValueError. -/
def pyInt (s : String) : Except PyErr Int :=
  let digitsVal : List Char → Int :=
    fun ds => Int.ofNat (ds.foldl (fun n c => n * 10 + (c.toNat - 48)) 0)
  match s.toList with
  | '-' :: rest =>
    if rest ≠ [] ∧ rest.all Char.isDigit then Except.ok (-(digitsVal rest))
    else Except.error (PyErr.valueError ("invalid literal for int: " ++ s))
  | '+' :: rest =>
    if rest ≠ [] ∧ rest.all Char.isDigit then Except.ok (digitsVal rest)
    else Except.error (PyErr.valueError ("invalid literal for int: " ++ s))
  | l =>
    if l ≠ [] ∧ l.all Char.isDigit then Except.ok (digitsVal l)
    else Except.error (PyErr.valueError ("invalid literal for int: " ++ s))

/-- The sort key of the order-by sort, `int(x[1][order_by])`: subscripting
a None metadata is a TypeError, a missing field a KeyError, a non-numeric
value a ValueError. -/
def entryKey (ob : String) (f : FileEntry) : Except PyErr Int :=
  match f.metadata with
  | none => Except.error (PyErr.typeError "NoneType object is not subscriptable")
  | some md =>
    match strOf md ob with
    | Except.error e => Except.error e
    | Except.ok v => pyInt v

/-- Stable insertion of a keyed entry into an ascending keyed list: the
entry passes over strictly smaller keys and stops before the first key not
smaller than its own, so equal keys keep their original relative order. -/
def insKeyed (p : Int × FileEntry) (l : List (Int × FileEntry)) :
    List (Int × FileEntry) :=
  match l with
  | [] => [p]
  | q :: t => if q.1 < p.1 then q :: insKeyed p t else p :: q :: t

/-- A stable ascending sort of keyed entries, the extensional behaviour of
Python `sorted` with an integer key function. -/
def sortKeyed (l : List (Int × FileEntry)) : List (Int × FileEntry) :=
  match l with
  | [] => []
  | x :: t => insKeyed x (sortKeyed t)

/-- Pair an entry with its order-by sort key. -/
def keyedOf (ob : String) (f : FileEntry) : Except PyErr (Int × FileEntry) :=
  match entryKey ob f with
  | Except.error e => Except.error e
  | Except.ok k => Except.ok (k, f)

/-- Python `sorted(a_file, key=lambda x: int(x[1][order_by]))`: compute the
integer key of every entry (the first failing key computation aborts the
sort), then sort stably ascending by key. -/
def sortGroup (ob : String) (fl : List FileEntry) :
    Except PyErr (List FileEntry) :=
  match mapE (keyedOf ob) fl with
  | Except.error e => Except.error e
  | Except.ok keyed => Except.ok ((sortKeyed keyed).map (fun p => p.2))

/-- A `SingleResource`: the full remote filename and the optional decoded
metadata. Its `_hash_value` fingerprint is modelled by the full remote
filename itself (`hash` is injective in the model; the source accepts hash
collisions as equality). -/
structure SingleResource where
  fullRemoteFilename : String
  metadata : Option Metadata
deriving DecidableEq, Repr

/-- The fingerprint of a `SingleResource`: `hash(self.full_remote_filename)`. -/
def SingleResource.fingerprint (r : SingleResource) : String :=
  r.fullRemoteFilename

/-- A `SequenceResource`: the fingerprint (the hash of the concatenation of
the member filenames of the file list it was built from, in that list's
order) and the tuple of member `SingleResource`. -/
structure SequenceResource where
  fingerprint : String
  seq : List SingleResource
deriving DecidableEq, Repr

/-- `SequenceResource.__init__`: the fingerprint is the concatenation of
the filenames of `file_list` in the order given, and each member becomes a
`SingleResource` under the file I/O URI with its metadata. -/
def mkSequence (uri : String) (fl : List FileEntry) : SequenceResource :=
  { fingerprint := String.join (fl.map (fun f => f.name))
    seq := fl.map (fun f => ⟨uri ++ f.name, f.metadata⟩) }

/-- A resource of a container: either a single file or a sequence. -/
inductive Resource where
  | single (r : SingleResource)
  | seq (s : SequenceResource)
deriving DecidableEq, Repr

/-- The fingerprint (`hash`) used as the membership key by differencing. -/
def Resource.fingerprint : Resource → String
  | .single r => r.fingerprint
  | .seq s => s.fingerprint

/-- The resource construction step of `ResourceContainer.__init__` for one
group: a group of more than one entry becomes a `SequenceResource` (sorted
when an order-by field was supplied, in grouped order otherwise); a group
of one entry becomes a `SingleResource`; the empty group (impossible for
groups produced by the grouping loop) is Python's IndexError. -/
def buildResource (uri : String) (ob : Option String) (fl : List FileEntry) :
    Except PyErr Resource :=
  if fl.length > 1 then
    match ob with
    | some o =>
      match sortGroup o fl with
      | Except.error e => Except.error e
      | Except.ok sortedFl => Except.ok (Resource.seq (mkSequence uri sortedFl))
    | none => Except.ok (Resource.seq (mkSequence uri fl))
  else
    match fl with
    | f :: _ => Except.ok (Resource.single ⟨uri ++ f.name, f.metadata⟩)
    | [] => Except.error (PyErr.genericException "IndexError")

/-- The annotation pass of `ResourceContainer.__init__` over the extracted
entries: with no filename regular expression every entry keeps metadata and
key at None, otherwise each entry is tagged in order. -/
def annotateAll (fileRe : Option (String → Option Metadata))
    (gb : Option (List String)) (raw : List String) :
    Except PyErr (List FileEntry) :=
  match fileRe with
  | none => Except.ok (raw.map (fun f => (⟨f, none, none⟩ : FileEntry)))
  | some m => mapE (tagFile m gb) raw

/-- The body of `ResourceContainer.__init__` after the listing fetch:
drop the first extracted entry (the parent directory link), annotate each
remaining entry with metadata and group key, group the entries, and build
one resource per group in group insertion order. -/
def scan (uri : String) (fileRe : Option (String → Option Metadata))
    (gb : Option (List String)) (ob : Option String) (hrefs : List String) :
    Except PyErr (List Resource) :=
  match annotateAll fileRe gb (hrefs.drop 1) with
  | Except.error e => Except.error e
  | Except.ok files => mapE (buildResource uri ob) (groupsOf gb files)

/-- A `ResourceContainer`: the file I/O URI it was scanned from and the
tuple of resources the scan produced. -/
structure ResourceContainer where
  fileIoUri : String
  resources : List Resource
deriving DecidableEq, Repr

/-- `ResourceContainer.__sub__`: index the fingerprints of the other
container, then keep, in original order, exactly the resources of this
container whose fingerprint is absent from that index; the result is a
shallow copy of this container carrying the difference. -/
def ResourceContainer.sub (a b : ResourceContainer) : ResourceContainer :=
  let assetIdx := b.resources.map (fun r => (r.fingerprint, r))
  let diff := a.resources.filter (fun r => (assetIdx.lookup r.fingerprint).isNone)
  { a with resources := diff }

/-! Observation functions used by the theorem statements. -/

/-- The last binding of a key in a dict, the binding Python dict update
semantics lets win when the same dict assigns a key twice. -/
def lastGet (u : StateDict) (k : String) : Option Val :=
  dictGet u.reverse k

/-- The value the merge of a response list leaves at a key: the value of
the last response that names the key (later responses overwrite earlier
ones), or nothing when no response names it. -/
def lastWins (resps : List StateDict) (k : String) : Option Val :=
  match resps with
  | [] => none
  | r :: t => Option.or (lastWins t k) (lastGet r k)

/-- Lookup of a group key in the grouped-files association list. -/
def glookup (k : Option String) (l : List (Option String × List FileEntry)) :
    Option (List FileEntry) :=
  match l with
  | [] => none
  | (k', g) :: t => if k' = k then some g else glookup k t

/-- The keys of a list in order of first occurrence, skipping keys already
seen. -/
def firstOcc (seen : List (Option String)) (ks : List (Option String)) :
    List (Option String) :=
  match ks with
  | [] => []
  | k :: t => if k ∈ seen then firstOcc seen t else k :: firstOcc (seen ++ [k]) t

/-! Concrete inputs used by witnesses and counterexamples. -/

/-- A transport on which command 21 succeeds with a response naming
ShootMode and every other command times out. -/
def exTransport : Transport :=
  fun c _ =>
    if c = 21 then Except.ok [("ShootMode", Val.vInt 3)]
    else Except.error (PyErr.timeoutError "Request timed out.")

/-- A transport on which commands 21 and 25 succeed with responses that
overlap on the key PhotoDelay, and every other command times out. -/
def exTransport2 : Transport :=
  fun c _ =>
    if c = 21 then Except.ok [("ShootMode", Val.vInt 3), ("PhotoDelay", Val.vInt 1)]
    else if c = 25 then Except.ok [("ISO", Val.vInt 2), ("PhotoDelay", Val.vInt 9)]
    else Except.error (PyErr.timeoutError "Request timed out.")

/-- A filename matcher recognising the two filenames b3 and a1, both in the
same group with frame numbers 3 and 1. -/
def exMatcher : String → Option Metadata :=
  fun f =>
    if f = "b3" then some [("g", "x"), ("frame", "3")]
    else if f = "a1" then some [("g", "x"), ("frame", "1")]
    else none

/-! Helper lemmas shared by the claim theorems. -/

theorem option_some_or {α : Type} (a : α) (x : Option α) :
    Option.or (some a) x = some a := rfl

theorem option_none_or {α : Type} (x : Option α) :
    Option.or none x = x := rfl

theorem option_or_assoc {α : Type} (a b c : Option α) :
    Option.or (Option.or a b) c = Option.or a (Option.or b c) := by
  cases a <;> rfl

theorem dictGet_dictSet (d : StateDict) (k : String) (v : Val) (k' : String) :
    dictGet (dictSet d k v) k' = if k = k' then some v else dictGet d k' := by
  induction d with
  | nil => simp [dictSet, dictGet]
  | cons p t ih =>
    obtain ⟨k0, v0⟩ := p
    by_cases h0 : k0 = k <;> by_cases h1 : k0 = k' <;> by_cases h2 : k = k' <;>
      simp_all [dictSet, dictGet]

theorem dictGet_append (a b : StateDict) (k : String) :
    dictGet (a ++ b) k = Option.or (dictGet a k) (dictGet b k) := by
  induction a with
  | nil => simp [dictGet, option_none_or]
  | cons p t ih =>
    obtain ⟨k0, v0⟩ := p
    by_cases h : k0 = k <;> simp [dictGet, h, ih, option_some_or]

theorem dictGet_dictUpdate (u d : StateDict) (k : String) :
    dictGet (dictUpdate d u) k = Option.or (lastGet u k) (dictGet d k) := by
  induction u generalizing d with
  | nil => simp [dictUpdate, lastGet, dictGet, option_none_or]
  | cons p t ih =>
    obtain ⟨k0, v0⟩ := p
    rw [show dictUpdate d ((k0, v0) :: t) = dictUpdate (dictSet d k0 v0) t from rfl, ih]
    unfold lastGet
    rw [List.reverse_cons, dictGet_append, option_or_assoc, dictGet_dictSet]
    congr 1
    by_cases h : k0 = k <;> simp [dictGet, h, option_some_or, option_none_or]

theorem dictGet_foldl_update (resps : List StateDict) (acc : StateDict) (k : String) :
    dictGet (resps.foldl dictUpdate acc) k =
      Option.or (lastWins resps k) (dictGet acc k) := by
  induction resps generalizing acc with
  | nil => simp [lastWins, option_none_or]
  | cons r t ih =>
    show dictGet (t.foldl dictUpdate (dictUpdate acc r)) k = _
    rw [ih, dictGet_dictUpdate]
    show _ = Option.or (Option.or (lastWins t k) (lastGet r k)) (dictGet acc k)
    rw [option_or_assoc]

theorem dictGet_reverse_none (r : StateDict) (k : String)
    (h : dictGet r k = none) : dictGet r.reverse k = none := by
  induction r with
  | nil => rfl
  | cons p t ih =>
    obtain ⟨k0, v0⟩ := p
    by_cases hk : k0 = k
    · simp [dictGet, hk] at h
    · have h2 : dictGet t k = none := by simpa [dictGet, hk] using h
      rw [List.reverse_cons, dictGet_append, ih h2]
      simp [dictGet, hk, option_none_or]

theorem lastWins_none (resps : List StateDict) (k : String)
    (h : ∀ r ∈ resps, dictGet r k = none) : lastWins resps k = none := by
  induction resps with
  | nil => rfl
  | cons r t ih =>
    show Option.or (lastWins t k) (lastGet r k) = none
    rw [lastGet, dictGet_reverse_none r k (h r (by simp)),
        ih (fun r2 hr2 => h r2 (by simp [hr2]))]
    rfl

theorem runOps_ok (t : Transport) (ops : List (Nat × StateDict)) (resps : List StateDict)
    (hf : List.Forall₂ (fun op r => t op.1 op.2 = Except.ok r) ops resps) (acc : StateDict) :
    runOps t ops acc = (ops.map Prod.fst, Except.ok (resps.foldl dictUpdate acc)) := by
  induction hf generalizing acc with
  | nil => simp [runOps]
  | @cons op r ops' resps' h hs ih =>
    obtain ⟨c, p⟩ := op
    simp only [runOps, h, ih, List.map_cons, List.foldl]

theorem runOps_append_error (t : Transport) (ops1 : List (Nat × StateDict)) (c : Nat)
    (p : StateDict) (e : PyErr) (ops2 : List (Nat × StateDict))
    (h1 : ∀ op ∈ ops1, ∃ r, t op.1 op.2 = Except.ok r)
    (h2 : t c p = Except.error e) (acc : StateDict) :
    runOps t (ops1 ++ (c, p) :: ops2) acc = (ops1.map Prod.fst ++ [c], Except.error e) := by
  induction ops1 generalizing acc with
  | nil => simp [runOps, h2]
  | cons op t1 ih =>
    obtain ⟨c0, p0⟩ := op
    obtain ⟨r, hr⟩ := h1 (c0, p0) (by simp)
    simp only [List.cons_append, runOps, hr, List.append_eq]
    rw [ih (fun op hop => h1 op (by simp [hop]))]
    simp

theorem filter_keys_nil (l : List (Nat × StateDict)) (k : Nat)
    (h : k ∉ l.map Prod.fst) : l.filter (fun p => p.1 == k) = [] := by
  induction l with
  | nil => rfl
  | cons p t ih =>
    obtain ⟨k0, v0⟩ := p
    have hk : ¬ k0 = k := by
      intro he
      exact h (by simp [he])
    simp only [List.filter]
    rw [show ((k0, v0).1 == k) = false by simpa using hk]
    exact ih (fun hm => h (by simp at hm ⊢; exact Or.inr hm))

theorem opsSet_filter (l : List (Nat × StateDict)) (k : Nat) (v : StateDict)
    (h : (l.map Prod.fst).Nodup) :
    (CamState.opsSet l k v).filter (fun p => p.1 == k) = [(k, v)] := by
  induction l with
  | nil => simp [CamState.opsSet]
  | cons p t ih =>
    obtain ⟨k0, v0⟩ := p
    have hcons : (k0 :: t.map Prod.fst).Nodup := by simpa using h
    by_cases h0 : k0 = k
    · subst h0
      have hnot : k0 ∉ t.map Prod.fst := (List.nodup_cons.mp hcons).1
      simp [CamState.opsSet, List.filter, filter_keys_nil t k0 hnot]
    · have ht : (t.map Prod.fst).Nodup := (List.nodup_cons.mp hcons).2
      simp only [CamState.opsSet, if_neg h0, List.filter]
      rw [show ((k0, v0).1 == k) = false by simpa using h0]
      exact ih ht

theorem opsSet_map_fst_of_mem (l : List (Nat × StateDict)) (k : Nat) (v : StateDict)
    (h : k ∈ l.map Prod.fst) :
    (CamState.opsSet l k v).map Prod.fst = l.map Prod.fst := by
  induction l with
  | nil => simp at h
  | cons p t ih =>
    obtain ⟨k0, v0⟩ := p
    by_cases h0 : k0 = k
    · simp [CamState.opsSet, h0]
    · have hm : k ∈ t.map Prod.fst := by
        simp at h
        rcases h with h | h
        · exact absurd h.symm h0
        · simpa using h
      simp [CamState.opsSet, h0, ih hm]

theorem opsSet_of_not_mem (l : List (Nat × StateDict)) (k : Nat) (v : StateDict)
    (h : k ∉ l.map Prod.fst) :
    CamState.opsSet l k v = l ++ [(k, v)] := by
  induction l with
  | nil => rfl
  | cons p t ih =>
    obtain ⟨k0, v0⟩ := p
    have h0 : ¬ k0 = k := fun he => h (by simp [he])
    have ht : k ∉ t.map Prod.fst := fun hm => h (by simp at hm ⊢; exact Or.inr hm)
    simp [CamState.opsSet, h0, ih ht]

theorem mapE_cons_ok {α β : Type} (f : α → Except PyErr β) (x : α) (t : List α)
    (l2 : List β) (h : mapE f (x :: t) = Except.ok l2) :
    ∃ y ys, f x = Except.ok y ∧ mapE f t = Except.ok ys ∧ l2 = y :: ys := by
  cases hfx : f x with
  | error e => simp [mapE, hfx] at h
  | ok y =>
    cases hmt : mapE f t with
    | error e => simp [mapE, hfx, hmt] at h
    | ok ys =>
      simp only [mapE, hfx, hmt] at h
      exact ⟨y, ys, rfl, rfl, (Except.ok.injEq _ _).mp h.symm⟩

theorem mapE_ok_length {α β : Type} (f : α → Except PyErr β) (l : List α)
    (l2 : List β) (h : mapE f l = Except.ok l2) : l2.length = l.length := by
  induction l generalizing l2 with
  | nil => simp [mapE] at h; simp [← h]
  | cons x t ih =>
    obtain ⟨y, ys, _, hmt, hl⟩ := mapE_cons_ok f x t l2 h
    subst hl
    simp [ih ys hmt]

theorem mapE_ok_get {α β : Type} (f : α → Except PyErr β) (l : List α)
    (l2 : List β) (h : mapE f l = Except.ok l2) :
    ∀ i (hi : i < l.length) (hi2 : i < l2.length),
      f (l.get ⟨i, hi⟩) = Except.ok (l2.get ⟨i, hi2⟩) := by
  induction l generalizing l2 with
  | nil => intro i hi; simp at hi
  | cons x t ih =>
    obtain ⟨y, ys, hfx, hmt, hl⟩ := mapE_cons_ok f x t l2 h
    subst hl
    intro i hi hi2
    cases i with
    | zero => simpa using hfx
    | succ j => exact ih ys hmt j (by simpa using hi) (by simpa using hi2)

theorem mapE_ok_mem_rev {α β : Type} (f : α → Except PyErr β) (l : List α)
    (l2 : List β) (h : mapE f l = Except.ok l2) :
    ∀ y ∈ l2, ∃ x ∈ l, f x = Except.ok y := by
  induction l generalizing l2 with
  | nil =>
    intro y hy
    simp [mapE] at h
    subst h
    simp at hy
  | cons x t ih =>
    obtain ⟨y, ys, hfx, hmt, hl⟩ := mapE_cons_ok f x t l2 h
    subst hl
    intro z hz
    rcases List.mem_cons.mp hz with hz | hz
    · exact ⟨x, by simp, hz ▸ hfx⟩
    · obtain ⟨x2, hx2, hfx2⟩ := ih ys hmt z hz
      exact ⟨x2, by simp [hx2], hfx2⟩

theorem mapE_ok_mem_fwd {α β : Type} (f : α → Except PyErr β) (l : List α)
    (l2 : List β) (h : mapE f l = Except.ok l2) :
    ∀ x ∈ l, ∃ y ∈ l2, f x = Except.ok y := by
  induction l generalizing l2 with
  | nil => intro x hx; simp at hx
  | cons x t ih =>
    obtain ⟨y, ys, hfx, hmt, hl⟩ := mapE_cons_ok f x t l2 h
    subst hl
    intro z hz
    rcases List.mem_cons.mp hz with hz | hz
    · exact ⟨y, by simp, hz ▸ hfx⟩
    · obtain ⟨y2, hy2, hfy2⟩ := ih ys hmt z hz
      exact ⟨y2, by simp [hy2], hfy2⟩

theorem readSeq_append_error (t : Transport) (cmds1 : List Nat) (c : Nat) (cmds2 : List Nat)
    (e : PyErr) (h1 : ∀ c' ∈ cmds1, ∃ r, t c' [] = Except.ok r)
    (h2 : t c [] = Except.error e) (acc : StateDict) :
    readSeq t (cmds1 ++ c :: cmds2) acc = Except.error e := by
  induction cmds1 generalizing acc with
  | nil => simp [readSeq, h2]
  | cons c0 t1 ih =>
    obtain ⟨r, hr⟩ := h1 c0 (by simp)
    simp only [List.cons_append, readSeq, hr]
    exact ih (fun c' hc => h1 c' (by simp [hc])) _

theorem option_or_none {α : Type} (x : Option α) : Option.or x none = x := by
  cases x <;> rfl

theorem dictGet_not_mem (d : StateDict) (k : String)
    (h : k ∉ d.map Prod.fst) : dictGet d k = none := by
  induction d with
  | nil => rfl
  | cons p t ih =>
    obtain ⟨k0, v0⟩ := p
    have h0 : ¬ k0 = k := fun he => h (by simp [he])
    have ht : k ∉ t.map Prod.fst := fun hm => h (by simp at hm ⊢; exact Or.inr hm)
    simp [dictGet, h0, ih ht]

theorem dictSet_mem_keys (d : StateDict) (k : String) (v : Val) (x : String) :
    x ∈ (dictSet d k v).map Prod.fst ↔ x ∈ d.map Prod.fst ∨ x = k := by
  induction d with
  | nil => simp [dictSet]
  | cons p t ih =>
    obtain ⟨k0, v0⟩ := p
    by_cases h0 : k0 = k
    · subst h0
      simp only [dictSet, if_pos rfl]
      simp
      tauto
    · simp only [dictSet, if_neg h0]
      simp [ih]
      tauto

theorem dictSet_nodup (d : StateDict) (k : String) (v : Val)
    (h : (d.map Prod.fst).Nodup) : ((dictSet d k v).map Prod.fst).Nodup := by
  induction d with
  | nil => simp [dictSet]
  | cons p t ih =>
    obtain ⟨k0, v0⟩ := p
    have hcons : (k0 :: t.map Prod.fst).Nodup := by simpa using h
    obtain ⟨hh, ht⟩ := List.nodup_cons.mp hcons
    by_cases h0 : k0 = k
    · subst h0
      simpa [dictSet] using hcons
    · have : ((dictSet t k v).map Prod.fst).Nodup := ih ht
      simp only [dictSet, if_neg h0, List.map_cons]
      refine List.nodup_cons.mpr ⟨?_, this⟩
      intro hm
      rcases (dictSet_mem_keys t k v k0).mp hm with hm | hm
      · exact hh hm
      · exact h0 hm

theorem dictUpdate_nodup (u d : StateDict)
    (h : (d.map Prod.fst).Nodup) : ((dictUpdate d u).map Prod.fst).Nodup := by
  induction u generalizing d with
  | nil => exact h
  | cons p t ih =>
    obtain ⟨k0, v0⟩ := p
    exact ih (dictSet d k0 v0) (dictSet_nodup d k0 v0 h)

theorem foldl_dictUpdate_nodup (resps : List StateDict) (acc : StateDict)
    (h : (acc.map Prod.fst).Nodup) :
    (((resps.foldl dictUpdate acc).map Prod.fst)).Nodup := by
  induction resps generalizing acc with
  | nil => exact h
  | cons r t ih => exact ih (dictUpdate acc r) (dictUpdate_nodup r acc h)

theorem dictGet_reverse_of_nodup (d : StateDict)
    (h : (d.map Prod.fst).Nodup) (k : String) :
    dictGet d.reverse k = dictGet d k := by
  induction d with
  | nil => rfl
  | cons p t ih =>
    obtain ⟨k0, v0⟩ := p
    have hcons : (k0 :: t.map Prod.fst).Nodup := by simpa using h
    obtain ⟨hh, ht⟩ := List.nodup_cons.mp hcons
    rw [List.reverse_cons, dictGet_append]
    by_cases h0 : k0 = k
    · subst h0
      have htn : dictGet t k0 = none := dictGet_not_mem t k0 hh
      rw [dictGet_reverse_none t k0 htn, option_none_or]
      simp [dictGet, htn]
    · rw [ih ht]
      simp [dictGet, h0, option_or_none]

theorem groupInsert_glookup (acc : List (Option String × List FileEntry))
    (f : FileEntry) (k : Option String) :
    glookup k (groupInsert acc f) =
      if k = f.key then some (((glookup k acc).getD []) ++ [f])
      else glookup k acc := by
  induction acc with
  | nil =>
    by_cases h : k = f.key
    · simp [groupInsert, glookup, h]
    · have h2 : ¬ f.key = k := fun he => h he.symm
      simp [groupInsert, glookup, h, h2]
  | cons p t ih =>
    obtain ⟨k0, g0⟩ := p
    by_cases h0 : k0 = f.key
    · by_cases h1 : k0 = k
      · have hk : k = f.key := h1 ▸ h0
        simp [groupInsert, glookup, h0, h1, hk]
      · have hk : ¬ k = f.key := fun he => h1 (h0 ▸ he.symm ▸ rfl)
        have h2 : ¬ f.key = k := fun he => hk he.symm
        simp [groupInsert, glookup, h0, h1, hk, h2]
    · by_cases h1 : k0 = k
      · have hk : ¬ k = f.key := fun he => h0 (h1.symm ▸ he ▸ rfl)
        simp [groupInsert, glookup, h0, h1, hk]
      · simp [groupInsert, glookup, h0, h1, ih]

theorem glookup_foldl_some (files : List FileEntry)
    (acc : List (Option String × List FileEntry)) (k : Option String)
    (g : List FileEntry) (h : glookup k acc = some g) :
    glookup k (files.foldl groupInsert acc) =
      some (g ++ files.filter (fun f => f.key == k)) := by
  induction files generalizing acc g with
  | nil => simpa using h
  | cons f t ih =>
    show glookup k (t.foldl groupInsert (groupInsert acc f)) = _
    by_cases hk : f.key = k
    · have h2 : glookup k (groupInsert acc f) = some (g ++ [f]) := by
        rw [groupInsert_glookup, if_pos hk.symm, h]
        rfl
      rw [ih _ _ h2]
      simp [List.filter, hk]
    · have h2 : glookup k (groupInsert acc f) = some g := by
        rw [groupInsert_glookup]
        have : ¬ k = f.key := fun he => hk he.symm
        simp [this, h]
      rw [ih _ _ h2]
      have hb : (f.key == k) = false := by simpa using hk
      simp [List.filter, hb]

theorem glookup_foldl_none (files : List FileEntry)
    (acc : List (Option String × List FileEntry)) (k : Option String)
    (h : glookup k acc = none) :
    glookup k (files.foldl groupInsert acc) =
      if files.filter (fun f => f.key == k) = [] then none
      else some (files.filter (fun f => f.key == k)) := by
  induction files generalizing acc with
  | nil => simpa using h
  | cons f t ih =>
    show glookup k (t.foldl groupInsert (groupInsert acc f)) = _
    by_cases hk : f.key = k
    · have h2 : glookup k (groupInsert acc f) = some [f] := by
        rw [groupInsert_glookup, if_pos hk.symm, h]
        rfl
      rw [glookup_foldl_some t _ k [f] h2]
      simp [List.filter, hk]
    · have h2 : glookup k (groupInsert acc f) = none := by
        rw [groupInsert_glookup]
        have : ¬ k = f.key := fun he => hk he.symm
        simp [this, h]
      rw [ih _ h2]
      have hb : (f.key == k) = false := by simpa using hk
      simp [List.filter, hb]

theorem groupInsert_keys_mem (acc : List (Option String × List FileEntry))
    (f : FileEntry) (h : f.key ∈ acc.map Prod.fst) :
    (groupInsert acc f).map Prod.fst = acc.map Prod.fst := by
  induction acc with
  | nil => simp at h
  | cons p t ih =>
    obtain ⟨k0, g0⟩ := p
    by_cases h0 : k0 = f.key
    · simp [groupInsert, h0]
    · have hm : f.key ∈ t.map Prod.fst := by
        simp at h
        rcases h with h | h
        · exact absurd h.symm h0
        · simpa using h
      simp [groupInsert, h0, ih hm]

theorem groupInsert_keys_notmem (acc : List (Option String × List FileEntry))
    (f : FileEntry) (h : f.key ∉ acc.map Prod.fst) :
    groupInsert acc f = acc ++ [(f.key, [f])] := by
  induction acc with
  | nil => rfl
  | cons p t ih =>
    obtain ⟨k0, g0⟩ := p
    have h0 : ¬ k0 = f.key := fun he => h (by simp [he])
    have ht : f.key ∉ t.map Prod.fst := fun hm => h (by simp at hm ⊢; exact Or.inr hm)
    simp [groupInsert, h0, ih ht]

theorem foldl_groupInsert_keys (files : List FileEntry)
    (acc : List (Option String × List FileEntry)) :
    (files.foldl groupInsert acc).map Prod.fst =
      acc.map Prod.fst ++ firstOcc (acc.map Prod.fst) (files.map FileEntry.key) := by
  induction files generalizing acc with
  | nil => simp [firstOcc]
  | cons f t ih =>
    show (t.foldl groupInsert (groupInsert acc f)).map Prod.fst = _
    by_cases hm : f.key ∈ acc.map Prod.fst
    · rw [ih, groupInsert_keys_mem acc f hm]
      simp [firstOcc, hm]
    · rw [ih, groupInsert_keys_notmem acc f hm]
      simp [firstOcc, hm]

theorem firstOcc_fresh_nodup (ks : List (Option String)) :
    ∀ seen, (∀ x ∈ firstOcc seen ks, x ∉ seen) ∧ (firstOcc seen ks).Nodup := by
  induction ks with
  | nil => intro seen; simp [firstOcc]
  | cons k t ih =>
    intro seen
    by_cases hm : k ∈ seen
    · simpa [firstOcc, hm] using ih seen
    · have iht := ih (seen ++ [k])
      constructor
      · intro x hx
        simp only [firstOcc, if_neg hm, List.mem_cons] at hx
        rcases hx with hx | hx
        · exact hx ▸ hm
        · intro hxs
          exact iht.1 x hx (by simp [hxs])
      · simp only [firstOcc, if_neg hm, List.nodup_cons]
        refine ⟨fun hk => ?_, iht.2⟩
        exact iht.1 k hk (by simp)

theorem groupAll_keys_nodup (files : List FileEntry) :
    ((groupAll files).map Prod.fst).Nodup := by
  rw [groupAll, foldl_groupInsert_keys]
  simpa using (firstOcc_fresh_nodup (files.map FileEntry.key) []).2

theorem glookup_of_mem (l : List (Option String × List FileEntry))
    (k : Option String) (g : List FileEntry)
    (hn : (l.map Prod.fst).Nodup) (h : (k, g) ∈ l) : glookup k l = some g := by
  induction l with
  | nil => simp at h
  | cons p t ih =>
    obtain ⟨k0, g0⟩ := p
    have hcons : (k0 :: t.map Prod.fst).Nodup := by simpa using hn
    rcases List.mem_cons.mp h with h | h
    · have h1 : k = k0 := congrArg Prod.fst h
      have h2 : g = g0 := congrArg Prod.snd h
      simp [glookup, h1.symm, h2]
    · have hnt : (t.map Prod.fst).Nodup := (List.nodup_cons.mp hcons).2
      have h0 : ¬ k0 = k := by
        intro he
        subst he
        exact (List.nodup_cons.mp hcons).1 (List.mem_map.mpr ⟨(k0, g), h, rfl⟩)
      simp [glookup, h0, ih hnt h]

theorem groupAll_values (files : List FileEntry) (p : Option String × List FileEntry)
    (h : p ∈ groupAll files) :
    p.2 = files.filter (fun f => f.key == p.1) := by
  have h1 : glookup p.1 (groupAll files) = some p.2 :=
    glookup_of_mem _ _ _ (groupAll_keys_nodup files) (by simpa using h)
  have h2 := glookup_foldl_none files [] p.1 rfl
  rw [groupAll] at h1
  rw [h1] at h2
  by_cases hnil : files.filter (fun f => f.key == p.1) = []
  · simp [hnil] at h2
  · simp only [if_neg hnil] at h2
    exact ((Option.some.injEq _ _).mp h2)

theorem insKeyed_mem (p : Int × FileEntry) (l : List (Int × FileEntry))
    (x : Int × FileEntry) : x ∈ insKeyed p l ↔ x = p ∨ x ∈ l := by
  induction l with
  | nil => simp [insKeyed]
  | cons q t ih =>
    by_cases h : q.1 < p.1
    · simp only [insKeyed, if_pos h, List.mem_cons, ih]
      tauto
    · simp only [insKeyed, if_neg h, List.mem_cons]

theorem insKeyed_pairwise (p : Int × FileEntry) (l : List (Int × FileEntry))
    (h : List.Pairwise (fun a b => a.1 ≤ b.1) l) :
    List.Pairwise (fun a b => a.1 ≤ b.1) (insKeyed p l) := by
  induction l with
  | nil => simp [insKeyed]
  | cons q t ih =>
    obtain ⟨hq, ht⟩ := List.pairwise_cons.mp h
    by_cases hlt : q.1 < p.1
    · rw [insKeyed, if_pos hlt]
      refine List.pairwise_cons.mpr ⟨?_, ih ht⟩
      intro x hx
      rcases (insKeyed_mem p t x).mp hx with hx | hx
      · exact hx ▸ le_of_lt hlt
      · exact hq x hx
    · rw [insKeyed, if_neg hlt]
      refine List.pairwise_cons.mpr ⟨?_, h⟩
      intro x hx
      rcases List.mem_cons.mp hx with hx | hx
      · exact hx ▸ le_of_not_lt hlt
      · exact le_trans (le_of_not_lt hlt) (hq x hx)

theorem sortKeyed_pairwise (l : List (Int × FileEntry)) :
    List.Pairwise (fun a b => a.1 ≤ b.1) (sortKeyed l) := by
  induction l with
  | nil => simp [sortKeyed]
  | cons x t ih => exact insKeyed_pairwise x (sortKeyed t) ih

theorem insKeyed_filter_eq (p : Int × FileEntry) (l : List (Int × FileEntry))
    (c : Int) (h : p.1 = c) :
    (insKeyed p l).filter (fun q => q.1 == c) =
      p :: l.filter (fun q => q.1 == c) := by
  induction l with
  | nil => simp [insKeyed, List.filter, h]
  | cons q t ih =>
    by_cases hlt : q.1 < p.1
    · have hq : (q.1 == c) = false := by
        simp only [beq_eq_false_iff_ne, ne_eq]
        intro he
        rw [he, ← h] at hlt
        exact lt_irrefl _ hlt
      rw [insKeyed, if_pos hlt]
      simp only [List.filter, hq, ih]
    · rw [insKeyed, if_neg hlt]
      simp [List.filter, h]

theorem insKeyed_filter_ne (p : Int × FileEntry) (l : List (Int × FileEntry))
    (c : Int) (h : ¬ p.1 = c) :
    (insKeyed p l).filter (fun q => q.1 == c) = l.filter (fun q => q.1 == c) := by
  have hp : (p.1 == c) = false := by simpa using h
  induction l with
  | nil => simp [insKeyed, List.filter, hp]
  | cons q t ih =>
    by_cases hlt : q.1 < p.1
    · rw [insKeyed, if_pos hlt]
      simp only [List.filter, ih]
    · rw [insKeyed, if_neg hlt]
      simp only [List.filter, hp]

theorem sortKeyed_filter (l : List (Int × FileEntry)) (c : Int) :
    (sortKeyed l).filter (fun q => q.1 == c) = l.filter (fun q => q.1 == c) := by
  induction l with
  | nil => rfl
  | cons x t ih =>
    show (insKeyed x (sortKeyed t)).filter _ = _
    by_cases h : x.1 = c
    · rw [insKeyed_filter_eq x (sortKeyed t) c h, ih]
      simp [List.filter, h]
    · rw [insKeyed_filter_ne x (sortKeyed t) c h, ih]
      have hb : (x.1 == c) = false := by simpa using h
      simp [List.filter, hb]

theorem mem_of_glookup (l : List (Option String × List FileEntry))
    (k : Option String) (g : List FileEntry)
    (h : glookup k l = some g) : (k, g) ∈ l := by
  induction l with
  | nil => simp [glookup] at h
  | cons p t ih =>
    obtain ⟨k0, g0⟩ := p
    by_cases h0 : k0 = k
    · subst h0
      simp only [glookup, if_pos rfl] at h
      simp [(Option.some.injEq _ _).mp h]
    · simp only [glookup, if_neg h0] at h
      exact List.mem_cons.mpr (Or.inr (ih h))

theorem scan_ok_inv (uri : String) (fileRe : Option (String → Option Metadata))
    (gb : Option (List String)) (ob : Option String) (hrefs : List String)
    (rs : List Resource) (h : scan uri fileRe gb ob hrefs = Except.ok rs) :
    ∃ files, annotateAll fileRe gb (hrefs.drop 1) = Except.ok files ∧
      mapE (buildResource uri ob) (groupsOf gb files) = Except.ok rs := by
  cases ha : annotateAll fileRe gb (hrefs.drop 1) with
  | error e => rw [scan, ha] at h; cases h
  | ok files =>
    rw [scan, ha] at h
    exact ⟨files, rfl, h⟩

theorem groupsOf_mem_some (g : List String) (files : List FileEntry)
    (group : List FileEntry) (h : group ∈ groupsOf (some g) files) :
    ∃ k, group = files.filter (fun f => f.key == k) := by
  simp only [groupsOf] at h
  obtain ⟨p, hp, he⟩ := List.mem_map.mp h
  exact ⟨p.1, he ▸ groupAll_values files p hp⟩

theorem scan_seq_group (uri : String) (fileRe : Option (String → Option Metadata))
    (gb : Option (List String)) (ob : Option String) (hrefs : List String)
    (rs : List Resource) (h : scan uri fileRe gb ob hrefs = Except.ok rs)
    (sq : SequenceResource) (hmem : Resource.seq sq ∈ rs) :
    ∃ files k, annotateAll fileRe gb (hrefs.drop 1) = Except.ok files ∧
      1 < (files.filter (fun f => f.key == k)).length ∧
      buildResource uri ob (files.filter (fun f => f.key == k)) =
        Except.ok (Resource.seq sq) := by
  obtain ⟨files, hann, hbuild⟩ := scan_ok_inv uri fileRe gb ob hrefs rs h
  obtain ⟨group, hgmem, hgok⟩ := mapE_ok_mem_rev _ _ _ hbuild (Resource.seq sq) hmem
  have hlen : 1 < group.length := by
    by_contra hle
    push_neg at hle
    cases group with
    | nil => simp [buildResource] at hgok
    | cons f t =>
      cases t with
      | nil => simp [buildResource] at hgok
      | cons f2 t2 => simp at hle
  cases gb with
  | none =>
    exfalso
    obtain ⟨f, _, he⟩ := List.mem_map.mp (by simpa [groupsOf] using hgmem)
    rw [← he] at hlen
    simp at hlen
  | some g =>
    obtain ⟨k, hk⟩ := groupsOf_mem_some g files group hgmem
    exact ⟨files, k, hann, hk ▸ hlen, hk ▸ hgok⟩

theorem buildResource_seq_ob (uri : String) (o : String) (fl : List FileEntry)
    (sq : SequenceResource) (hlen : 1 < fl.length)
    (h : buildResource uri (some o) fl = Except.ok (Resource.seq sq)) :
    ∃ keyed, mapE (keyedOf o) fl = Except.ok keyed ∧
      sq = mkSequence uri ((sortKeyed keyed).map Prod.snd) := by
  rw [buildResource.eq_def, if_pos hlen] at h
  have h2 : (match sortGroup o fl with
      | Except.error e => Except.error e
      | Except.ok sortedFl =>
        Except.ok (Resource.seq (mkSequence uri sortedFl))) =
      Except.ok (Resource.seq sq) := h
  cases hs : sortGroup o fl with
  | error e => rw [hs] at h2; cases h2
  | ok sortedFl =>
    rw [hs] at h2
    have hsq : Resource.seq (mkSequence uri sortedFl) = Resource.seq sq :=
      (Except.ok.injEq _ _).mp h2
    cases hm : mapE (keyedOf o) fl with
    | error e => rw [sortGroup, hm] at hs; cases hs
    | ok keyed =>
      rw [sortGroup, hm] at hs
      have hsf : (sortKeyed keyed).map Prod.snd = sortedFl :=
        (Except.ok.injEq _ _).mp hs
      refine ⟨keyed, rfl, ?_⟩
      have := (Resource.seq.injEq _ _).mp hsq
      rw [← this, hsf]

theorem buildResource_seq_none (uri : String) (fl : List FileEntry)
    (sq : SequenceResource) (hlen : 1 < fl.length)
    (h : buildResource uri none fl = Except.ok (Resource.seq sq)) :
    sq = mkSequence uri fl := by
  rw [buildResource.eq_def, if_pos hlen] at h
  have h2 : Except.ok (Resource.seq (mkSequence uri fl)) =
      Except.ok (Resource.seq sq) := h
  have hsq : Resource.seq (mkSequence uri fl) = Resource.seq sq :=
    (Except.ok.injEq _ _).mp h2
  exact ((Resource.seq.injEq _ _).mp hsq).symm

theorem buildResource_single (uri : String) (ob : Option String) (f : FileEntry) :
    buildResource uri ob [f] =
      Except.ok (Resource.single ⟨uri ++ f.name, f.metadata⟩) := by
  rw [buildResource.eq_def]
  simp

theorem buildResource_gt_one_seq (uri : String) (ob : Option String)
    (fl : List FileEntry) (r : Resource) (hlen : 1 < fl.length)
    (h : buildResource uri ob fl = Except.ok r) : ∃ sq, r = Resource.seq sq := by
  rw [buildResource.eq_def, if_pos hlen] at h
  cases ob with
  | none =>
    have h2 : Except.ok (Resource.seq (mkSequence uri fl)) = Except.ok r := h
    exact ⟨_, ((Except.ok.injEq _ _).mp h2).symm⟩
  | some o =>
    have h2 : (match sortGroup o fl with
        | Except.error e => Except.error e
        | Except.ok s2 => Except.ok (Resource.seq (mkSequence uri s2))) =
        Except.ok r := h
    cases hs : sortGroup o fl with
    | error e => rw [hs] at h2; cases h2
    | ok s2 =>
      rw [hs] at h2
      exact ⟨_, ((Except.ok.injEq _ _).mp h2).symm⟩

theorem tagFile_fail (m : String → Option Metadata) (gb : Option (List String))
    (f : String) (h : m f = none) :
    tagFile m gb f = Except.ok ⟨f, none, none⟩ := by
  simp [tagFile, h]

theorem tagFile_metadata_key (m : String → Option Metadata) (g : List String)
    (x : String) (f : FileEntry) (h : tagFile m (some g) x = Except.ok f) :
    f.metadata = none ↔ f.key = none := by
  cases hm : m x with
  | none =>
    rw [tagFile_fail m (some g) x hm] at h
    have hf : (⟨x, none, none⟩ : FileEntry) = f := (Except.ok.injEq _ _).mp h
    subst hf
    simp
  | some md =>
    have h2 : (match computeKey md g "" with
        | Except.error e => Except.error e
        | Except.ok k => Except.ok (⟨x, some md, some k⟩ : FileEntry)) =
        Except.ok f := by
      rw [← h]
      simp [tagFile, hm]
    cases hk : computeKey md g "" with
    | error e => rw [hk] at h2; cases h2
    | ok k =>
      rw [hk] at h2
      have hf : (⟨x, some md, some k⟩ : FileEntry) = f := (Except.ok.injEq _ _).mp h2
      subst hf
      simp

theorem singleton_groups_build (uri : String) (ob : Option String)
    (fs : List FileEntry) (rs2 : List Resource)
    (h : mapE (buildResource uri ob) (fs.map (fun f => [f])) = Except.ok rs2) :
    rs2 = fs.map (fun f => Resource.single ⟨uri ++ f.name, f.metadata⟩) := by
  induction fs generalizing rs2 with
  | nil =>
    simp [mapE] at h
    simpa using h
  | cons f t ih =>
    rw [List.map_cons] at h
    obtain ⟨y, ys, hy, hys, hr⟩ := mapE_cons_ok _ _ _ _ h
    rw [buildResource_single uri ob f] at hy
    have hy2 : Resource.single ⟨uri ++ f.name, f.metadata⟩ = y :=
      (Except.ok.injEq _ _).mp hy
    subst hr
    rw [ih ys hys, List.map_cons, hy2]

/-! Claim theorems. -/

/-- C1 (counterexample): a commit in which the operation for command 21
succeeds with a response naming ShootMode and the operation for command 25
then fails leaves the DeviceState entirely unchanged: ShootMode is still
None afterwards, not the merged response field of the succeeded operation,
so the state does not reflect a partial update. -/
theorem claim1_counterexample :
    commitState exTransport (CamState.init none)
        [(21, [("ModeType", Val.vInt 3)]), (25, [("ISO", Val.vInt 2)])] =
      (Except.error (PyErr.timeoutError "Request timed out."), CamState.init none) ∧
    exTransport 21 [("ModeType", Val.vInt 3)] = Except.ok [("ShootMode", Val.vInt 3)] ∧
    dictGet (CamState.init none).cameraData "ShootMode" = some Val.vNone :=
  ⟨rfl, rfl, rfl⟩

/-- C1 (amended): for every commit of a non-empty pending operation set in
which every operation before some failing operation succeeds, reconciliation
stops at the failing operation (exactly the commands up to and including it
are issued, the tail is never issued), the failure propagates to the caller,
and the DeviceState is left entirely unchanged: the responses of the
operations that succeeded before the failure are discarded, not merged. -/
theorem claim1_amended (t : Transport) (cur : CamState)
    (ops1 : List (Nat × StateDict)) (c : Nat) (p : StateDict) (e : PyErr)
    (ops2 : List (Nat × StateDict))
    (h1 : ∀ op ∈ ops1, ∃ r, t op.1 op.2 = Except.ok r)
    (h2 : t c p = Except.error e) :
    runOps t (ops1 ++ (c, p) :: ops2) [] = (ops1.map Prod.fst ++ [c], Except.error e) ∧
    commitState t cur (ops1 ++ (c, p) :: ops2) = (Except.error e, cur) := by
  have hro := runOps_append_error t ops1 c p e ops2 h1 h2 []
  refine ⟨hro, ?_⟩
  have hlen : (ops1 ++ (c, p) :: ops2).length > 0 := by simp
  simp only [commitState, hro, if_pos hlen]

/-- C1 (witness): the amended claim at a concrete commit of two operations
whose second transport call times out. -/
theorem claim1_witness :
    runOps exTransport ([(21, [("ModeType", Val.vInt 3)])] ++
        (25, [("ISO", Val.vInt 2)]) :: []) [] =
      ([21, 25], Except.error (PyErr.timeoutError "Request timed out.")) ∧
    commitState exTransport (CamState.init none)
        ([(21, [("ModeType", Val.vInt 3)])] ++ (25, [("ISO", Val.vInt 2)]) :: []) =
      (Except.error (PyErr.timeoutError "Request timed out."), CamState.init none) :=
  claim1_amended exTransport (CamState.init none) [(21, [("ModeType", Val.vInt 3)])]
    25 [("ISO", Val.vInt 2)] (PyErr.timeoutError "Request timed out.") []
    (by
      intro op hop
      simp only [List.mem_singleton] at hop
      subst hop
      exact ⟨[("ShootMode", Val.vInt 3)], rfl⟩)
    rfl

/-- C3 (counterexample): a full read on a transport whose every request
times out raises the bare generic Exception("Something Went wrong"), not a
StateReadError or any error kind distinguishable from a generic failure. -/
theorem claim3_counterexample :
    fullRead (fun _ _ => Except.error (PyErr.timeoutError "Request timed out.")) =
      Except.error (PyErr.genericException "Something Went wrong") := rfl

/-- C3 (amended): for every full read, if any single read request fails
(all requests before it succeeding), the full read aborts and raises the
bare generic Exception("Something Went wrong") - the specific error kind is
discarded - and no partial DeviceState is returned. -/
theorem claim3_amended (t : Transport) (cmds1 : List Nat) (c : Nat)
    (cmds2 : List Nat) (e : PyErr)
    (hsplit : fullReadCmds = cmds1 ++ c :: cmds2)
    (h1 : ∀ c2 ∈ cmds1, ∃ r, t c2 [] = Except.ok r)
    (h2 : t c [] = Except.error e) :
    fullRead t = Except.error (PyErr.genericException "Something Went wrong") := by
  simp only [fullRead, hsplit]
  rw [readSeq_append_error t cmds1 c cmds2 e h1 h2]

/-- C3 (witness): the amended claim at a transport whose first request
fails with a connection error. -/
theorem claim3_witness :
    fullRead (fun _ _ => Except.error (PyErr.connectionError "Failed to connect.")) =
      Except.error (PyErr.genericException "Something Went wrong") :=
  claim3_amended (fun _ _ => Except.error (PyErr.connectionError "Failed to connect."))
    [] 3 [37, 4, 5, 6, 7, 8, 9, 10, 11, 12, 13, 14, 15, 16, 17]
    (PyErr.connectionError "Failed to connect.") rfl
    (by intro c2 hc; simp at hc) rfl

/-- C5: for every read/write attribute and every value inside the
attribute's declared domain, set succeeds, leaves the attribute data
unchanged, and afterwards the pending set contains exactly one operation
for the attribute's command id carrying the latest value; an existing
operation for that command id is replaced in place (the key order is
preserved), otherwise the new operation is appended. -/
theorem claim5_set_in_domain (a : RwAttr) (s : CamState) (v : Int)
    (hd : a.inDomain v) (hn : (s.ops.map Prod.fst).Nodup) :
    (RwAttr.applySet a s v).1 = Except.ok () ∧
    (RwAttr.applySet a s v).2.cameraData = s.cameraData ∧
    (RwAttr.applySet a s v).2.ops.filter (fun p => p.1 == a.cmdId) =
      [(a.cmdId, [(a.paramKey, Val.vInt v)])] ∧
    (a.cmdId ∈ s.ops.map Prod.fst →
      (RwAttr.applySet a s v).2.ops.map Prod.fst = s.ops.map Prod.fst) ∧
    (a.cmdId ∉ s.ops.map Prod.fst →
      (RwAttr.applySet a s v).2.ops = s.ops ++ [(a.cmdId, [(a.paramKey, Val.vInt v)])]) := by
  have key : RwAttr.applySet a s v =
      (Except.ok (), { s with
        ops := (CamState.opsSet s.ops a.cmdId [(a.paramKey, Val.vInt v)]) }) := by
    cases a
    · have hd2 : 0 ≤ v ∧ v < 7 := hd
      simp [RwAttr.applySet, CamState.setShootMode, RwAttr.cmdId, RwAttr.paramKey, hd2]
    · have hd2 : v = 0 ∨ v = 1 := hd
      simp [RwAttr.applySet, CamState.setSettingMode, RwAttr.cmdId, RwAttr.paramKey, hd2]
    · have hd2 : 0 ≤ v ∧ v < 5 := hd
      simp [RwAttr.applySet, CamState.setIso, RwAttr.cmdId, RwAttr.paramKey, hd2]
    · have hd2 : 0 ≤ v ∧ v < 5 := hd
      simp [RwAttr.applySet, CamState.setWhiteBalanceMode, RwAttr.cmdId, RwAttr.paramKey, hd2]
    · have hd2 : 0 ≤ v ∧ v < 14 := hd
      simp [RwAttr.applySet, CamState.setExposureCompensation, RwAttr.cmdId, RwAttr.paramKey, hd2]
  refine ⟨by simp [key], by simp [key], ?_, ?_, ?_⟩
  · simp only [key]
    exact opsSet_filter s.ops a.cmdId _ hn
  · intro hm
    simp only [key]
    exact opsSet_map_fst_of_mem s.ops a.cmdId _ hm
  · intro hm
    simp only [key]
    exact opsSet_of_not_mem s.ops a.cmdId _ hm

/-- C5 (witness): setting ISO to 2 on a freshly initialised state. -/
theorem claim5_witness :
    (RwAttr.applySet RwAttr.iso (CamState.init none) 2).1 = Except.ok () ∧
    (RwAttr.applySet RwAttr.iso (CamState.init none) 2).2.cameraData =
      (CamState.init none).cameraData ∧
    (RwAttr.applySet RwAttr.iso (CamState.init none) 2).2.ops.filter
        (fun p => p.1 == RwAttr.iso.cmdId) =
      [(RwAttr.iso.cmdId, [(RwAttr.iso.paramKey, Val.vInt 2)])] ∧
    (RwAttr.iso.cmdId ∈ (CamState.init none).ops.map Prod.fst →
      (RwAttr.applySet RwAttr.iso (CamState.init none) 2).2.ops.map Prod.fst =
        (CamState.init none).ops.map Prod.fst) ∧
    (RwAttr.iso.cmdId ∉ (CamState.init none).ops.map Prod.fst →
      (RwAttr.applySet RwAttr.iso (CamState.init none) 2).2.ops =
        (CamState.init none).ops ++ [(RwAttr.iso.cmdId, [(RwAttr.iso.paramKey, Val.vInt 2)])]) :=
  claim5_set_in_domain RwAttr.iso (CamState.init none) 2 (by decide) (by decide)

/-- C6 (counterexample): setting ISO to the out-of-domain value 5 raises a
ValueError whose message is the fixed literal text of an unexpanded
placeholder; the message does not contain the offending value 5 (it has no
digit at all), and setting shoot mode to 9 likewise raises a message
naming neither the value nor the placeholder. -/
theorem claim6_counterexample :
    RwAttr.applySet RwAttr.iso (CamState.init none) 5 =
      (Except.error (PyErr.valueError "Invalid value \x7bnew_iso_value\x7d for parameter iso"),
        CamState.init none) ∧
    ('5' ∈ "Invalid value \x7bnew_iso_value\x7d for parameter iso".toList → False) ∧
    RwAttr.applySet RwAttr.shootMode (CamState.init none) 9 =
      (Except.error (PyErr.valueError "Can't set that shoot mode"), CamState.init none) ∧
    ('9' ∈ "Can't set that shoot mode".toList → False) :=
  ⟨rfl, by decide, rfl, by decide⟩

/-- C6 (amended): for every read/write attribute and every value outside
the attribute's declared domain, set raises a ValueError carrying the
attribute's fixed error message - a message that does not include the
offending value - and the state, in particular its pending operation set,
is unchanged by the failed call. -/
theorem claim6_amended (a : RwAttr) (s : CamState) (v : Int)
    (hd : ¬ a.inDomain v) :
    RwAttr.applySet a s v = (Except.error (PyErr.valueError a.errMsg), s) := by
  cases a
  · have hd2 : ¬ (0 ≤ v ∧ v < 7) := hd
    simp [RwAttr.applySet, CamState.setShootMode, RwAttr.errMsg, hd2]
  · have hd2 : ¬ (v = 0 ∨ v = 1) := hd
    simp only [RwAttr.applySet, CamState.setSettingMode, RwAttr.errMsg, if_neg hd2]
  · have hd2 : ¬ (0 ≤ v ∧ v < 5) := hd
    simp [RwAttr.applySet, CamState.setIso, RwAttr.errMsg, hd2]
  · have hd2 : ¬ (0 ≤ v ∧ v < 5) := hd
    simp [RwAttr.applySet, CamState.setWhiteBalanceMode, RwAttr.errMsg, hd2]
  · have hd2 : ¬ (0 ≤ v ∧ v < 14) := hd
    simp [RwAttr.applySet, CamState.setExposureCompensation, RwAttr.errMsg, hd2]

/-- C6 (witness): the amended claim at ISO 5 on a freshly initialised
state. -/
theorem claim6_witness :
    RwAttr.applySet RwAttr.iso (CamState.init none) 5 =
      (Except.error (PyErr.valueError (RwAttr.errMsg RwAttr.iso)), CamState.init none) :=
  claim6_amended RwAttr.iso (CamState.init none) 5 (by decide)

/-- C10: for every commit of a pending operation set in which every
transport call succeeds, the commit reports success, every DeviceState
field that is named in no response retains the value it had before the
commit, and every field's value after the commit is the value given by the
last response naming it, falling back to the old value (last write wins
across responses). -/
theorem claim10_commit_frame (t : Transport) (cur : CamState)
    (ops : List (Nat × StateDict)) (resps : List StateDict)
    (hf : List.Forall₂ (fun op r => t op.1 op.2 = Except.ok r) ops resps)
    (hne : 0 < ops.length) :
    (commitState t cur ops).1 = Except.ok () ∧
    (∀ k, dictGet (commitState t cur ops).2.cameraData k =
      Option.or (lastWins resps k) (dictGet cur.cameraData k)) ∧
    (∀ k, (∀ r ∈ resps, dictGet r k = none) →
      dictGet (commitState t cur ops).2.cameraData k = dictGet cur.cameraData k) := by
  have hro := runOps_ok t ops resps hf []
  have hcs : commitState t cur ops = (Except.ok (), { cur with
      cameraData := dictUpdate cur.cameraData (resps.foldl dictUpdate []) }) := by
    simp only [commitState, hro, if_pos hne]
  have hmain : ∀ k, dictGet (commitState t cur ops).2.cameraData k =
      Option.or (lastWins resps k) (dictGet cur.cameraData k) := by
    intro k
    rw [hcs]
    show dictGet (dictUpdate cur.cameraData (resps.foldl dictUpdate [])) k = _
    rw [dictGet_dictUpdate]
    have hnod : ((resps.foldl dictUpdate ([] : StateDict)).map Prod.fst).Nodup :=
      foldl_dictUpdate_nodup resps [] (by simp)
    rw [lastGet, dictGet_reverse_of_nodup _ hnod k, dictGet_foldl_update]
    rw [show dictGet ([] : StateDict) k = none from rfl, option_or_none]
  refine ⟨by rw [hcs], hmain, ?_⟩
  intro k hk
  rw [hmain k, lastWins_none resps k hk]
  rfl

/-- C10 (witness): a commit of two operations whose responses overlap on
PhotoDelay: the later response wins there, ShootMode keeps the value of the
first response, and the untouched WifiSSID field keeps its old value. -/
theorem claim10_witness :
    (commitState exTransport2 (CamState.init none)
        [(21, [("ModeType", Val.vInt 3)]), (25, [("ISO", Val.vInt 2)])]).1 =
      Except.ok () ∧
    dictGet (commitState exTransport2 (CamState.init none)
        [(21, [("ModeType", Val.vInt 3)]), (25, [("ISO", Val.vInt 2)])]).2.cameraData
      "PhotoDelay" = some (Val.vInt 9) ∧
    dictGet (commitState exTransport2 (CamState.init none)
        [(21, [("ModeType", Val.vInt 3)]), (25, [("ISO", Val.vInt 2)])]).2.cameraData
      "ShootMode" = some (Val.vInt 3) ∧
    dictGet (commitState exTransport2 (CamState.init none)
        [(21, [("ModeType", Val.vInt 3)]), (25, [("ISO", Val.vInt 2)])]).2.cameraData
      "WifiSSID" = some Val.vNone := by
  have h := claim10_commit_frame exTransport2 (CamState.init none)
    [(21, [("ModeType", Val.vInt 3)]), (25, [("ISO", Val.vInt 2)])]
    [[("ShootMode", Val.vInt 3), ("PhotoDelay", Val.vInt 1)],
     [("ISO", Val.vInt 2), ("PhotoDelay", Val.vInt 9)]]
    (List.Forall₂.cons rfl (List.Forall₂.cons rfl List.Forall₂.nil)) (by decide)
  exact ⟨h.1, (h.2.1 "PhotoDelay").trans rfl, (h.2.1 "ShootMode").trans rfl,
    (h.2.2 "WifiSSID" (by decide)).trans rfl⟩

theorem lookup_fingerprint_isNone (rs : List Resource) (f : String) :
    (List.lookup f (rs.map (fun r => (r.fingerprint, r)))).isNone
      = decide (f ∉ rs.map Resource.fingerprint) := by
  induction rs with
  | nil => simp
  | cons r t ih =>
    by_cases h : f = r.fingerprint
    · simp [List.lookup, h]
    · simp only [List.map_cons, List.lookup]
      rw [show (f == r.fingerprint) = false by simpa using h]
      simp [ih, h]

theorem sub_resources (a b : ResourceContainer) :
    (a.sub b).resources = a.resources.filter
      (fun r => decide (r.fingerprint ∉ b.resources.map Resource.fingerprint)) := by
  show a.resources.filter _ = _
  apply List.filter_congr
  intro r _
  exact lookup_fingerprint_isNone b.resources r.fingerprint

theorem rc_ext (x y : ResourceContainer) (h1 : x.fileIoUri = y.fileIoUri)
    (h2 : x.resources = y.resources) : x = y := by
  cases x
  cases y
  simp_all

/-- C4: differencing keeps, in original order, exactly the resources of the
left container whose fingerprint is absent from the right container (and
the scanned URI is kept); hence A.sub A is empty (a valid container, not an
error), A.sub B equals A unchanged when B is empty, and differencing is
asymmetric on A = {1,2,3}, B = {2,3,4}: A.sub B = {1} and B.sub A = {4}. -/
theorem claim4_difference :
    (∀ a b : ResourceContainer,
      (a.sub b).fileIoUri = a.fileIoUri ∧
      (a.sub b).resources = a.resources.filter
        (fun r => decide (r.fingerprint ∉ b.resources.map Resource.fingerprint))) ∧
    (∀ a : ResourceContainer, (a.sub a).resources = []) ∧
    (∀ a b : ResourceContainer, b.resources = [] → a.sub b = a) ∧
    ((ResourceContainer.mk "u" [Resource.single ⟨"1", none⟩, Resource.single ⟨"2", none⟩,
        Resource.single ⟨"3", none⟩]).sub
      (ResourceContainer.mk "u" [Resource.single ⟨"2", none⟩, Resource.single ⟨"3", none⟩,
        Resource.single ⟨"4", none⟩])).resources = [Resource.single ⟨"1", none⟩] ∧
    ((ResourceContainer.mk "u" [Resource.single ⟨"2", none⟩, Resource.single ⟨"3", none⟩,
        Resource.single ⟨"4", none⟩]).sub
      (ResourceContainer.mk "u" [Resource.single ⟨"1", none⟩, Resource.single ⟨"2", none⟩,
        Resource.single ⟨"3", none⟩])).resources = [Resource.single ⟨"4", none⟩] := by
  refine ⟨fun a b => ⟨rfl, sub_resources a b⟩, ?_, ?_, by decide, by decide⟩
  · intro a
    rw [sub_resources]
    apply List.filter_eq_nil_iff.mpr
    intro r hr
    simp only [decide_eq_true_eq, not_not]
    exact List.mem_map.mpr ⟨r, hr, rfl⟩
  · intro a b hb
    have h1 : (a.sub b).resources = a.resources := by
      rw [sub_resources, hb]
      simp
    exact rc_ext _ _ rfl h1

/-- C4 (witness): differencing against an empty container returns the left
container unchanged. -/
theorem claim4_witness :
    (ResourceContainer.mk "u" [Resource.single ⟨"1", none⟩]).sub
        (ResourceContainer.mk "u" []) =
      ResourceContainer.mk "u" [Resource.single ⟨"1", none⟩] :=
  claim4_difference.2.2.1 _ _ rfl

/-- C7: within every SequenceResource built by a successful scan with an
order-by field supplied, the members are the stable ascending sort by the
numeric value of that metadata field of the group's entries: the member
list carries integer keys that are pairwise non-decreasing, and for every
key value the members with that key appear in their original encounter
order (the group is the in-order filter of the scanned entries); when the
order-by field is absent, the members are exactly the group's entries in
encounter order. -/
theorem claim7_sequence_order :
    (∀ (uri : String) (fileRe : Option (String → Option Metadata))
        (gb : Option (List String)) (o : String) (hrefs : List String)
        (rs : List Resource),
      scan uri fileRe gb (some o) hrefs = Except.ok rs →
      ∀ sq, Resource.seq sq ∈ rs →
      ∃ files k keyed,
        annotateAll fileRe gb (hrefs.drop 1) = Except.ok files ∧
        1 < (files.filter (fun f => f.key == k)).length ∧
        mapE (keyedOf o) (files.filter (fun f => f.key == k)) = Except.ok keyed ∧
        sq = mkSequence uri ((sortKeyed keyed).map Prod.snd) ∧
        List.Pairwise (fun a b => a.1 ≤ b.1) (sortKeyed keyed) ∧
        (∀ c : Int, (sortKeyed keyed).filter (fun q => q.1 == c) =
          keyed.filter (fun q => q.1 == c))) ∧
    (∀ (uri : String) (fileRe : Option (String → Option Metadata))
        (gb : Option (List String)) (hrefs : List String) (rs : List Resource),
      scan uri fileRe gb none hrefs = Except.ok rs →
      ∀ sq, Resource.seq sq ∈ rs →
      ∃ files k,
        annotateAll fileRe gb (hrefs.drop 1) = Except.ok files ∧
        1 < (files.filter (fun f => f.key == k)).length ∧
        sq = mkSequence uri (files.filter (fun f => f.key == k))) := by
  constructor
  · intro uri fileRe gb o hrefs rs h sq hmem
    obtain ⟨files, k, hann, hlen, hb⟩ :=
      scan_seq_group uri fileRe gb (some o) hrefs rs h sq hmem
    obtain ⟨keyed, hkey, hsq⟩ := buildResource_seq_ob uri o _ sq hlen hb
    exact ⟨files, k, keyed, hann, hlen, hkey, hsq, sortKeyed_pairwise keyed,
      fun c => sortKeyed_filter keyed c⟩
  · intro uri fileRe gb hrefs rs h sq hmem
    obtain ⟨files, k, hann, hlen, hb⟩ :=
      scan_seq_group uri fileRe gb none hrefs rs h sq hmem
    exact ⟨files, k, hann, hlen, buildResource_seq_none uri _ sq hlen hb⟩

/-- C7 (witness): a scan of the two matching entries b3 and a1 (frames 3
and 1, same group) ordered by the frame field yields the sequence holding
a1 before b3. -/
theorem claim7_witness :
    ∃ files k keyed,
      annotateAll (some exMatcher) (some ["g"]) (["../", "b3", "a1"].drop 1) =
        Except.ok files ∧
      1 < (files.filter (fun f => f.key == k)).length ∧
      mapE (keyedOf "frame") (files.filter (fun f => f.key == k)) =
        Except.ok keyed ∧
      (⟨"a1b3", [⟨"U/a1", some [("g", "x"), ("frame", "1")]⟩,
          ⟨"U/b3", some [("g", "x"), ("frame", "3")]⟩]⟩ : SequenceResource) =
        mkSequence "U/" ((sortKeyed keyed).map Prod.snd) ∧
      List.Pairwise (fun a b => a.1 ≤ b.1) (sortKeyed keyed) ∧
      (∀ c : Int, (sortKeyed keyed).filter (fun q => q.1 == c) =
        keyed.filter (fun q => q.1 == c)) :=
  claim7_sequence_order.1 "U/" (some exMatcher) (some ["g"]) "frame"
    ["../", "b3", "a1"]
    [Resource.seq ⟨"a1b3", [⟨"U/a1", some [("g", "x"), ("frame", "1")]⟩,
      ⟨"U/b3", some [("g", "x"), ("frame", "3")]⟩]⟩]
    rfl
    ⟨"a1b3", [⟨"U/a1", some [("g", "x"), ("frame", "1")]⟩,
      ⟨"U/b3", some [("g", "x"), ("frame", "3")]⟩]⟩
    (List.mem_singleton.mpr rfl)

/-- C9 (counterexample): scanning the entries b3 then a1 (one group,
encounter order b3, a1) with the order-by field supplied produces a
sequence whose fingerprint is "a1b3" - the concatenation of the member
filenames in sorted order - while the concatenation in grouped (encounter)
order would be "b3a1". -/
theorem claim9_counterexample :
    scan "U/" (some exMatcher) (some ["g"]) (some "frame") ["../", "b3", "a1"] =
      Except.ok [Resource.seq ⟨"a1b3",
        [⟨"U/a1", some [("g", "x"), ("frame", "1")]⟩,
         ⟨"U/b3", some [("g", "x"), ("frame", "3")]⟩]⟩] ∧
    (SequenceResource.fingerprint ⟨"a1b3",
        [⟨"U/a1", some [("g", "x"), ("frame", "1")]⟩,
         ⟨"U/b3", some [("g", "x"), ("frame", "3")]⟩]⟩ = "b3" ++ "a1" → False) :=
  ⟨rfl, by decide⟩

/-- C9 (amended): for every SequenceResource built by a successful scan,
the fingerprint is the concatenation of the member filenames in the order
the members are stored in the sequence: the stable sorted order when an
order-by field was supplied (keys pairwise non-decreasing), and the grouped
encounter order when it was absent. -/
theorem claim9_amended :
    (∀ (uri : String) (fileRe : Option (String → Option Metadata))
        (gb : Option (List String)) (o : String) (hrefs : List String)
        (rs : List Resource),
      scan uri fileRe gb (some o) hrefs = Except.ok rs →
      ∀ sq, Resource.seq sq ∈ rs →
      ∃ keyed,
        sq = mkSequence uri ((sortKeyed keyed).map Prod.snd) ∧
        sq.fingerprint =
          String.join (((sortKeyed keyed).map Prod.snd).map FileEntry.name) ∧
        List.Pairwise (fun a b => a.1 ≤ b.1) (sortKeyed keyed)) ∧
    (∀ (uri : String) (fileRe : Option (String → Option Metadata))
        (gb : Option (List String)) (hrefs : List String) (rs : List Resource),
      scan uri fileRe gb none hrefs = Except.ok rs →
      ∀ sq, Resource.seq sq ∈ rs →
      ∃ files k,
        annotateAll fileRe gb (hrefs.drop 1) = Except.ok files ∧
        sq = mkSequence uri (files.filter (fun f => f.key == k)) ∧
        sq.fingerprint =
          String.join ((files.filter (fun f => f.key == k)).map FileEntry.name)) := by
  constructor
  · intro uri fileRe gb o hrefs rs h sq hmem
    obtain ⟨files, k, hann, hlen, hb⟩ :=
      scan_seq_group uri fileRe gb (some o) hrefs rs h sq hmem
    obtain ⟨keyed, hkey, hsq⟩ := buildResource_seq_ob uri o _ sq hlen hb
    exact ⟨keyed, hsq, by rw [hsq]; rfl, sortKeyed_pairwise keyed⟩
  · intro uri fileRe gb hrefs rs h sq hmem
    obtain ⟨files, k, hann, hlen, hb⟩ :=
      scan_seq_group uri fileRe gb none hrefs rs h sq hmem
    have hsq := buildResource_seq_none uri _ sq hlen hb
    exact ⟨files, k, hann, hsq, by rw [hsq]; rfl⟩

/-- C9 (witness): the amended claim at the concrete ordered scan of b3 and
a1. -/
theorem claim9_witness :
    ∃ keyed,
      (⟨"a1b3", [⟨"U/a1", some [("g", "x"), ("frame", "1")]⟩,
          ⟨"U/b3", some [("g", "x"), ("frame", "3")]⟩]⟩ : SequenceResource) =
        mkSequence "U/" ((sortKeyed keyed).map Prod.snd) ∧
      SequenceResource.fingerprint ⟨"a1b3",
          [⟨"U/a1", some [("g", "x"), ("frame", "1")]⟩,
           ⟨"U/b3", some [("g", "x"), ("frame", "3")]⟩]⟩ =
        String.join (((sortKeyed keyed).map Prod.snd).map FileEntry.name) ∧
      List.Pairwise (fun a b => a.1 ≤ b.1) (sortKeyed keyed) :=
  claim9_amended.1 "U/" (some exMatcher) (some ["g"]) "frame"
    ["../", "b3", "a1"]
    [Resource.seq ⟨"a1b3", [⟨"U/a1", some [("g", "x"), ("frame", "1")]⟩,
      ⟨"U/b3", some [("g", "x"), ("frame", "3")]⟩]⟩]
    rfl
    ⟨"a1b3", [⟨"U/a1", some [("g", "x"), ("frame", "1")]⟩,
      ⟨"U/b3", some [("g", "x"), ("frame", "3")]⟩]⟩
    (List.mem_singleton.mpr rfl)

/-- C2 (counterexample): a scan with a name pattern (matching nothing) and
group-by fields supplied, over two entries that both fail to match,
produces a single two-member SequenceResource - the two non-matching
entries are grouped together under the shared None key - instead of two
singleton SingleResources. -/
theorem claim2_counterexample :
    scan "U/" (some (fun _ => none)) (some ["g"]) none ["../", "x.txt", "y.txt"] =
      Except.ok [Resource.seq ⟨"x.txty.txt",
        [⟨"U/x.txt", none⟩, ⟨"U/y.txt", none⟩]⟩] := rfl

/-- C2 (amended): an entry whose filename fails to match the name pattern
retains metadata = None; when group-by fields are absent every entry
(matching or not) becomes its own SingleResource in listing order, but when
group-by fields are supplied every non-matching entry carries the None
group key (an entry is unmatched exactly when its key is None), so two or
more non-matching entries are grouped together into one SequenceResource
holding exactly the non-matching entries in encounter order. -/
theorem claim2_amended :
    (∀ (m : String → Option Metadata) (gb : Option (List String)) (f : String),
      m f = none → tagFile m gb f = Except.ok ⟨f, none, none⟩) ∧
    (∀ (uri : String) (m : String → Option Metadata) (ob : Option String)
        (hrefs : List String) (rs : List Resource),
      scan uri (some m) none ob hrefs = Except.ok rs →
      ∃ files, mapE (tagFile m none) (hrefs.drop 1) = Except.ok files ∧
        rs = files.map (fun f => Resource.single ⟨uri ++ f.name, f.metadata⟩)) ∧
    (∀ (uri : String) (m : String → Option Metadata) (g : List String)
        (hrefs : List String) (rs : List Resource),
      scan uri (some m) (some g) none hrefs = Except.ok rs →
      ∃ files, mapE (tagFile m (some g)) (hrefs.drop 1) = Except.ok files ∧
        (∀ f ∈ files, f.metadata = none ↔ f.key = none) ∧
        (1 < (files.filter (fun f => f.key == (none : Option String))).length →
          ∃ sq, Resource.seq sq ∈ rs ∧
            sq = mkSequence uri
              (files.filter (fun f => f.key == (none : Option String))))) := by
  refine ⟨tagFile_fail, ?_, ?_⟩
  · intro uri m ob hrefs rs h
    obtain ⟨files, hann, hbuild⟩ := scan_ok_inv uri (some m) none ob hrefs rs h
    refine ⟨files, hann, ?_⟩
    have hgr : groupsOf none files = files.map (fun f => [f]) := rfl
    rw [hgr] at hbuild
    exact singleton_groups_build uri ob files rs hbuild
  · intro uri m g hrefs rs h
    obtain ⟨files, hann, hbuild⟩ := scan_ok_inv uri (some m) (some g) none hrefs rs h
    refine ⟨files, hann, ?_, ?_⟩
    · intro f hf
      obtain ⟨x, _, hx⟩ := mapE_ok_mem_rev _ _ _ hann f hf
      exact tagFile_metadata_key m g x f hx
    · intro hlen
      have hne : files.filter (fun f => f.key == (none : Option String)) ≠ [] := by
        intro hnil
        rw [hnil] at hlen
        simp at hlen
      have hgl : glookup none (groupAll files) =
          some (files.filter (fun f => f.key == (none : Option String))) := by
        have := glookup_foldl_none files [] none rfl
        rw [groupAll]
        rw [this, if_neg hne]
      have hmemg : (none, files.filter (fun f => f.key == (none : Option String))) ∈
          groupAll files := mem_of_glookup _ _ _ hgl
      have hgrp : files.filter (fun f => f.key == (none : Option String)) ∈
          groupsOf (some g) files := by
        simp only [groupsOf]
        exact List.mem_map.mpr ⟨_, hmemg, rfl⟩
      obtain ⟨y, hy, hby⟩ := mapE_ok_mem_fwd _ _ _ hbuild _ hgrp
      have hb2 : buildResource uri none
          (files.filter (fun f => f.key == (none : Option String))) =
          Except.ok y := hby
      rw [buildResource.eq_def, if_pos hlen] at hb2
      have hy2 : Except.ok (Resource.seq (mkSequence uri
          (files.filter (fun f => f.key == (none : Option String))))) =
          Except.ok y := hb2
      have := (Except.ok.injEq _ _).mp hy2
      exact ⟨_, this ▸ hy, rfl⟩

/-- C2 (witness): the amended claim at the concrete scan of two
non-matching entries with group-by supplied: both land in the shared
None-key group and come back as one sequence. -/
theorem claim2_witness :
    ∃ files, mapE (tagFile (fun _ => none) (some ["g"]))
        (["../", "x.txt", "y.txt"].drop 1) = Except.ok files ∧
      (∀ f ∈ files, f.metadata = none ↔ f.key = none) ∧
      (1 < (files.filter (fun f => f.key == (none : Option String))).length →
        ∃ sq, Resource.seq sq ∈
            [Resource.seq (⟨"x.txty.txt",
              [⟨"U/x.txt", none⟩, ⟨"U/y.txt", none⟩]⟩ : SequenceResource)] ∧
          sq = mkSequence "U/"
            (files.filter (fun f => f.key == (none : Option String)))) :=
  claim2_amended.2.2 "U/" (fun _ => none) ["g"] ["../", "x.txt", "y.txt"]
    [Resource.seq ⟨"x.txty.txt", [⟨"U/x.txt", none⟩, ⟨"U/y.txt", none⟩]⟩] rfl

/-- C8: for every successful scan with a name pattern and group-by fields
supplied, every group of the grouping stage holds exactly the scanned
entries bearing its key, in encounter order (so entries sharing a group key
are in the same group, and each key has one group); the catalog lists one
resource per group in the order the group keys were first encountered, a
group of one entry becoming a SingleResource and a group of two or more
entries becoming a SequenceResource. -/
theorem claim8_grouping (uri : String) (m : String → Option Metadata)
    (g : List String) (ob : Option String) (hrefs : List String)
    (rs : List Resource)
    (h : scan uri (some m) (some g) ob hrefs = Except.ok rs) :
    ∃ files, mapE (tagFile m (some g)) (hrefs.drop 1) = Except.ok files ∧
      (∀ p ∈ groupAll files, p.2 = files.filter (fun f => f.key == p.1)) ∧
      ((groupAll files).map Prod.fst).Nodup ∧
      (groupAll files).map Prod.fst = firstOcc [] (files.map FileEntry.key) ∧
      rs.length = (groupAll files).length ∧
      (∀ i (hg2 : i < (groupAll files).length) (hr : i < rs.length),
        ((groupAll files)[i].2.length = 1 →
          ∃ f, (groupAll files)[i].2 = [f] ∧
            rs[i] = Resource.single ⟨uri ++ f.name, f.metadata⟩) ∧
        (1 < (groupAll files)[i].2.length → ∃ sq, rs[i] = Resource.seq sq)) := by
  obtain ⟨files, hann, hbuild⟩ := scan_ok_inv uri (some m) (some g) ob hrefs rs h
  have hgr : groupsOf (some g) files = (groupAll files).map (fun p => p.2) := rfl
  rw [hgr] at hbuild
  have hlen : rs.length = (groupAll files).length := by
    have := mapE_ok_length _ _ _ hbuild
    simpa using this
  refine ⟨files, hann, fun p hp => groupAll_values files p hp,
    groupAll_keys_nodup files,
    by rw [groupAll, foldl_groupInsert_keys]; simp, hlen, ?_⟩
  intro i hg2 hr
  have hidx := mapE_ok_get _ _ _ hbuild i (by simpa using hg2) hr
  rw [List.get_eq_getElem, List.get_eq_getElem, List.getElem_map] at hidx
  constructor
  · intro h1
    obtain ⟨f, hf⟩ := List.length_eq_one.mp h1
    rw [hf] at hidx
    rw [buildResource_single] at hidx
    exact ⟨f, hf, ((Except.ok.injEq _ _).mp hidx).symm⟩
  · intro h1
    obtain ⟨sq, hsq⟩ := buildResource_gt_one_seq uri ob _ _ h1 hidx
    exact ⟨sq, hsq⟩

/-- C8 (witness): the claim at the concrete scan of the two matching
entries b3 and a1 sharing one group key. -/
theorem claim8_witness :
    ∃ files, mapE (tagFile exMatcher (some ["g"]))
        (["../", "b3", "a1"].drop 1) = Except.ok files ∧
      (∀ p ∈ groupAll files, p.2 = files.filter (fun f => f.key == p.1)) ∧
      ((groupAll files).map Prod.fst).Nodup ∧
      (groupAll files).map Prod.fst = firstOcc [] (files.map FileEntry.key) ∧
      ([Resource.seq (⟨"b3a1",
          [⟨"U/b3", some [("g", "x"), ("frame", "3")]⟩,
           ⟨"U/a1", some [("g", "x"), ("frame", "1")]⟩]⟩ :
            SequenceResource)] : List Resource).length =
        (groupAll files).length ∧
      (∀ i (hg2 : i < (groupAll files).length)
          (hr : i < ([Resource.seq (⟨"b3a1",
            [⟨"U/b3", some [("g", "x"), ("frame", "3")]⟩,
             ⟨"U/a1", some [("g", "x"), ("frame", "1")]⟩]⟩ :
              SequenceResource)] : List Resource).length),
        ((groupAll files)[i].2.length = 1 →
          ∃ f, (groupAll files)[i].2 = [f] ∧
            ([Resource.seq (⟨"b3a1",
              [⟨"U/b3", some [("g", "x"), ("frame", "3")]⟩,
               ⟨"U/a1", some [("g", "x"), ("frame", "1")]⟩]⟩ :
                SequenceResource)] : List Resource)[i] =
              Resource.single ⟨"U/" ++ f.name, f.metadata⟩) ∧
        (1 < (groupAll files)[i].2.length →
          ∃ sq, ([Resource.seq (⟨"b3a1",
            [⟨"U/b3", some [("g", "x"), ("frame", "3")]⟩,
             ⟨"U/a1", some [("g", "x"), ("frame", "1")]⟩]⟩ :
              SequenceResource)] : List Resource)[i] = Resource.seq sq)) :=
  claim8_grouping "U/" exMatcher ["g"] none ["../", "b3", "a1"]
    [Resource.seq ⟨"b3a1",
      [⟨"U/b3", some [("g", "x"), ("frame", "3")]⟩,
       ⟨"U/a1", some [("g", "x"), ("frame", "1")]⟩]⟩] rfl

end PyWunderCam
